import Mathlib

/-!
Shallow embedding of the content-bounds-aware rendering pipeline of the
icon-manager tool (`tools/icon_manager`): the bounds detector
(`get_image_bounds`), the vector rasterizer (`render_svg_cropped`), the
raster compositor (`render_png_to_bounds`), the `IconBounds` / `IconTarget`
data model, and config loading (`Config.load`).

Raster images (`QImage`) are modelled as a width, a height and a per-pixel
alpha readout; a Qt image is null exactly when either dimension is zero
(a failed decode yields a 0x0 image).  Painting is modelled geometrically:
a produced canvas records its dimensions, pixel format, initial fill, and
the list of draw operations together with their placement; float
arithmetic of the original is modelled with exact rationals.
-/

set_option maxRecDepth 40000

/-- A decoded raster image: dimensions plus per-pixel alpha readout
(the 0-255 alpha channel of the ARGB32 pixel, `(pixel >> 24) & 0xFF`). -/
structure Img where
  width : Nat
  height : Nat
  alpha : Nat → Nat → Nat

/-- Qt null check: a `QImage` is null iff it has no pixels
(failed decodes give a 0x0 image). -/
def Img.isNull (img : Img) : Bool :=
  img.width == 0 || img.height == 0

/-- `IconBounds` dataclass from `core/models.py`: bounding box of
non-transparent content, all fields defaulting to 0. -/
structure IconBounds where
  x : Int := 0
  y : Int := 0
  width : Int := 0
  height : Int := 0
  image_width : Int := 0
  image_height : Int := 0
deriving DecidableEq, Repr

/-- `IconBounds.is_full`: bounds cover the entire image (no padding). -/
def IconBounds.is_full (b : IconBounds) : Bool :=
  b.x == 0 && b.y == 0 && b.width == b.image_width && b.height == b.image_height

/-- `IconBounds.is_empty`: bounds have zero area. -/
def IconBounds.is_empty (b : IconBounds) : Bool :=
  b.width == 0 || b.height == 0

/-- `IconTarget` dataclass: one destination icon file to generate
(paths are modelled as plain strings). -/
structure IconTarget where
  name : String
  width : Nat
  height : Nat
  path : String
  category : String
  bounds : Option IconBounds := none
  override_path : Option String := none

/-- State of the pixel scan in `get_image_bounds`:
`min_x, min_y = width, height` and `max_x, max_y = 0, 0` initially. -/
structure ScanState where
  minX : Nat
  minY : Nat
  maxX : Nat
  maxY : Nat
deriving DecidableEq, Repr

/-- One step of the scan: pixels with alpha strictly above 10 update the
running min/max, all others leave the state unchanged. -/
def scanStep (img : Img) (s : ScanState) (p : Nat × Nat) : ScanState :=
  if 10 < img.alpha p.1 p.2 then
    ⟨min s.minX p.1, min s.minY p.2, max s.maxX p.1, max s.maxY p.2⟩
  else s

/-- The scan order of the nested loops
`for y in range(height): for x in range(width)`. -/
def coords (w h : Nat) : List (Nat × Nat) :=
  (List.range h).flatMap fun y => (List.range w).map fun x => (x, y)

/-- The full pixel scan of `get_image_bounds`. -/
def scanImage (img : Img) : ScanState :=
  List.foldl (scanStep img) ⟨img.width, img.height, 0, 0⟩ (coords img.width img.height)

/-- `get_image_bounds` from `rendering/renderer.py`: find the bounding box
of non-transparent content in an image. -/
def get_image_bounds (img : Img) : IconBounds :=
  if img.isNull then {}
  else
    let w := img.width
    let h := img.height
    let s := scanImage img
    if s.maxX < s.minX ∨ s.maxY < s.minY then
      ⟨0, 0, w, h, w, h⟩
    else
      ⟨s.minX, s.minY, (s.maxX : Int) - s.minX + 1, (s.maxY : Int) - s.minY + 1, w, h⟩

/-- The set of visible pixels of an image: in-range coordinates whose
alpha exceeds the visibility threshold 10. -/
def visibleFinset (img : Img) : Finset (Nat × Nat) :=
  (Finset.range img.width ×ˢ Finset.range img.height).filter
    fun p => 10 < img.alpha p.1 p.2

/-! ### Scan fold lemmas -/

theorem mem_coords {w h : Nat} {p : Nat × Nat} :
    p ∈ coords w h ↔ p.1 < w ∧ p.2 < h := by
  cases p with
  | mk x y =>
    simp only [coords, List.mem_flatMap, List.mem_map, List.mem_range, Prod.mk.injEq]
    constructor
    · rintro ⟨y', hy', x', hx', hxx, hyy⟩
      subst hxx; subst hyy; exact ⟨hx', hy'⟩
    · rintro ⟨hx, hy⟩
      exact ⟨y, hy, x, hx, rfl, rfl⟩

theorem scan_minX_le_init (img : Img) (l : List (Nat × Nat)) (s : ScanState) :
    (List.foldl (scanStep img) s l).minX ≤ s.minX := by
  induction l generalizing s with
  | nil => exact Nat.le_refl _
  | cons q t ih =>
    refine Nat.le_trans (ih (scanStep img s q)) ?_
    unfold scanStep
    split
    · exact Nat.min_le_left _ _
    · exact Nat.le_refl _

theorem scan_minY_le_init (img : Img) (l : List (Nat × Nat)) (s : ScanState) :
    (List.foldl (scanStep img) s l).minY ≤ s.minY := by
  induction l generalizing s with
  | nil => exact Nat.le_refl _
  | cons q t ih =>
    refine Nat.le_trans (ih (scanStep img s q)) ?_
    unfold scanStep
    split
    · exact Nat.min_le_left _ _
    · exact Nat.le_refl _

theorem scan_init_le_maxX (img : Img) (l : List (Nat × Nat)) (s : ScanState) :
    s.maxX ≤ (List.foldl (scanStep img) s l).maxX := by
  induction l generalizing s with
  | nil => exact Nat.le_refl _
  | cons q t ih =>
    refine Nat.le_trans ?_ (ih (scanStep img s q))
    unfold scanStep
    split
    · exact Nat.le_max_left _ _
    · exact Nat.le_refl _

theorem scan_init_le_maxY (img : Img) (l : List (Nat × Nat)) (s : ScanState) :
    s.maxY ≤ (List.foldl (scanStep img) s l).maxY := by
  induction l generalizing s with
  | nil => exact Nat.le_refl _
  | cons q t ih =>
    refine Nat.le_trans ?_ (ih (scanStep img s q))
    unfold scanStep
    split
    · exact Nat.le_max_left _ _
    · exact Nat.le_refl _

theorem scan_minX_le_of_mem (img : Img) (l : List (Nat × Nat)) (s : ScanState)
    {p : Nat × Nat} (hp : p ∈ l) (hvis : 10 < img.alpha p.1 p.2) :
    (List.foldl (scanStep img) s l).minX ≤ p.1 := by
  induction l generalizing s with
  | nil => cases hp
  | cons q t ih =>
    rcases List.mem_cons.mp hp with h | h
    · subst h
      refine Nat.le_trans (scan_minX_le_init img t (scanStep img s p)) ?_
      unfold scanStep
      rw [if_pos hvis]
      exact Nat.min_le_right _ _
    · exact ih (scanStep img s q) h

theorem scan_minY_le_of_mem (img : Img) (l : List (Nat × Nat)) (s : ScanState)
    {p : Nat × Nat} (hp : p ∈ l) (hvis : 10 < img.alpha p.1 p.2) :
    (List.foldl (scanStep img) s l).minY ≤ p.2 := by
  induction l generalizing s with
  | nil => cases hp
  | cons q t ih =>
    rcases List.mem_cons.mp hp with h | h
    · subst h
      refine Nat.le_trans (scan_minY_le_init img t (scanStep img s p)) ?_
      unfold scanStep
      rw [if_pos hvis]
      exact Nat.min_le_right _ _
    · exact ih (scanStep img s q) h

theorem scan_le_maxX_of_mem (img : Img) (l : List (Nat × Nat)) (s : ScanState)
    {p : Nat × Nat} (hp : p ∈ l) (hvis : 10 < img.alpha p.1 p.2) :
    p.1 ≤ (List.foldl (scanStep img) s l).maxX := by
  induction l generalizing s with
  | nil => cases hp
  | cons q t ih =>
    rcases List.mem_cons.mp hp with h | h
    · subst h
      refine Nat.le_trans ?_ (scan_init_le_maxX img t (scanStep img s p))
      unfold scanStep
      rw [if_pos hvis]
      exact Nat.le_max_right _ _
    · exact ih (scanStep img s q) h

theorem scan_le_maxY_of_mem (img : Img) (l : List (Nat × Nat)) (s : ScanState)
    {p : Nat × Nat} (hp : p ∈ l) (hvis : 10 < img.alpha p.1 p.2) :
    p.2 ≤ (List.foldl (scanStep img) s l).maxY := by
  induction l generalizing s with
  | nil => cases hp
  | cons q t ih =>
    rcases List.mem_cons.mp hp with h | h
    · subst h
      refine Nat.le_trans ?_ (scan_init_le_maxY img t (scanStep img s p))
      unfold scanStep
      rw [if_pos hvis]
      exact Nat.le_max_right _ _
    · exact ih (scanStep img s q) h

theorem scan_minX_attained (img : Img) (l : List (Nat × Nat)) (s : ScanState) :
    (List.foldl (scanStep img) s l).minX = s.minX ∨
      ∃ p ∈ l, 10 < img.alpha p.1 p.2 ∧ (List.foldl (scanStep img) s l).minX = p.1 := by
  induction l generalizing s with
  | nil => exact Or.inl rfl
  | cons q t ih =>
    rw [List.foldl_cons]
    rcases ih (scanStep img s q) with h | ⟨p, hp, hv, he⟩
    · by_cases hq : 10 < img.alpha q.1 q.2
      · have hs : (scanStep img s q).minX = min s.minX q.1 := by
          unfold scanStep
          rw [if_pos hq]
        rcases min_choice s.minX q.1 with hm | hm
        · exact Or.inl (h.trans (hs.trans hm))
        · exact Or.inr ⟨q, List.mem_cons_self q t, hq, h.trans (hs.trans hm)⟩
      · have hs : scanStep img s q = s := by
          unfold scanStep
          rw [if_neg hq]
        exact Or.inl (h.trans (congrArg ScanState.minX hs))
    · exact Or.inr ⟨p, List.mem_cons_of_mem q hp, hv, he⟩

theorem scan_minY_attained (img : Img) (l : List (Nat × Nat)) (s : ScanState) :
    (List.foldl (scanStep img) s l).minY = s.minY ∨
      ∃ p ∈ l, 10 < img.alpha p.1 p.2 ∧ (List.foldl (scanStep img) s l).minY = p.2 := by
  induction l generalizing s with
  | nil => exact Or.inl rfl
  | cons q t ih =>
    rw [List.foldl_cons]
    rcases ih (scanStep img s q) with h | ⟨p, hp, hv, he⟩
    · by_cases hq : 10 < img.alpha q.1 q.2
      · have hs : (scanStep img s q).minY = min s.minY q.2 := by
          unfold scanStep
          rw [if_pos hq]
        rcases min_choice s.minY q.2 with hm | hm
        · exact Or.inl (h.trans (hs.trans hm))
        · exact Or.inr ⟨q, List.mem_cons_self q t, hq, h.trans (hs.trans hm)⟩
      · have hs : scanStep img s q = s := by
          unfold scanStep
          rw [if_neg hq]
        exact Or.inl (h.trans (congrArg ScanState.minY hs))
    · exact Or.inr ⟨p, List.mem_cons_of_mem q hp, hv, he⟩

theorem scan_maxX_attained (img : Img) (l : List (Nat × Nat)) (s : ScanState) :
    (List.foldl (scanStep img) s l).maxX = s.maxX ∨
      ∃ p ∈ l, 10 < img.alpha p.1 p.2 ∧ (List.foldl (scanStep img) s l).maxX = p.1 := by
  induction l generalizing s with
  | nil => exact Or.inl rfl
  | cons q t ih =>
    rw [List.foldl_cons]
    rcases ih (scanStep img s q) with h | ⟨p, hp, hv, he⟩
    · by_cases hq : 10 < img.alpha q.1 q.2
      · have hs : (scanStep img s q).maxX = max s.maxX q.1 := by
          unfold scanStep
          rw [if_pos hq]
        rcases max_choice s.maxX q.1 with hm | hm
        · exact Or.inl (h.trans (hs.trans hm))
        · exact Or.inr ⟨q, List.mem_cons_self q t, hq, h.trans (hs.trans hm)⟩
      · have hs : scanStep img s q = s := by
          unfold scanStep
          rw [if_neg hq]
        exact Or.inl (h.trans (congrArg ScanState.maxX hs))
    · exact Or.inr ⟨p, List.mem_cons_of_mem q hp, hv, he⟩

theorem scan_maxY_attained (img : Img) (l : List (Nat × Nat)) (s : ScanState) :
    (List.foldl (scanStep img) s l).maxY = s.maxY ∨
      ∃ p ∈ l, 10 < img.alpha p.1 p.2 ∧ (List.foldl (scanStep img) s l).maxY = p.2 := by
  induction l generalizing s with
  | nil => exact Or.inl rfl
  | cons q t ih =>
    rw [List.foldl_cons]
    rcases ih (scanStep img s q) with h | ⟨p, hp, hv, he⟩
    · by_cases hq : 10 < img.alpha q.1 q.2
      · have hs : (scanStep img s q).maxY = max s.maxY q.2 := by
          unfold scanStep
          rw [if_pos hq]
        rcases max_choice s.maxY q.2 with hm | hm
        · exact Or.inl (h.trans (hs.trans hm))
        · exact Or.inr ⟨q, List.mem_cons_self q t, hq, h.trans (hs.trans hm)⟩
      · have hs : scanStep img s q = s := by
          unfold scanStep
          rw [if_neg hq]
        exact Or.inl (h.trans (congrArg ScanState.maxY hs))
    · exact Or.inr ⟨p, List.mem_cons_of_mem q hp, hv, he⟩

theorem scan_no_visible (img : Img) (l : List (Nat × Nat)) (s : ScanState)
    (h : ∀ p ∈ l, ¬ 10 < img.alpha p.1 p.2) :
    List.foldl (scanStep img) s l = s := by
  induction l generalizing s with
  | nil => rfl
  | cons q t ih =>
    have hs : scanStep img s q = s := by
      unfold scanStep
      rw [if_neg (h q (List.mem_cons_self q t))]
    rw [List.foldl_cons, hs]
    exact ih s fun p hp => h p (List.mem_cons_of_mem q hp)

theorem scan_maxX_lt (img : Img) (l : List (Nat × Nat)) (s : ScanState) (w : Nat)
    (hl : ∀ p ∈ l, p.1 < w) (hs : s.maxX < w) :
    (List.foldl (scanStep img) s l).maxX < w := by
  induction l generalizing s with
  | nil => exact hs
  | cons q t ih =>
    rw [List.foldl_cons]
    refine ih (scanStep img s q) (fun p hp => hl p (List.mem_cons_of_mem q hp)) ?_
    unfold scanStep
    split
    · exact max_lt hs (hl q (List.mem_cons_self q t))
    · exact hs

theorem scan_maxY_lt (img : Img) (l : List (Nat × Nat)) (s : ScanState) (h : Nat)
    (hl : ∀ p ∈ l, p.2 < h) (hs : s.maxY < h) :
    (List.foldl (scanStep img) s l).maxY < h := by
  induction l generalizing s with
  | nil => exact hs
  | cons q t ih =>
    rw [List.foldl_cons]
    refine ih (scanStep img s q) (fun p hp => hl p (List.mem_cons_of_mem q hp)) ?_
    unfold scanStep
    split
    · exact max_lt hs (hl q (List.mem_cons_self q t))
    · exact hs

theorem mem_visibleFinset {img : Img} {p : Nat × Nat} :
    p ∈ visibleFinset img ↔ p.1 < img.width ∧ p.2 < img.height ∧ 10 < img.alpha p.1 p.2 := by
  simp only [visibleFinset, Finset.mem_filter, Finset.mem_product, Finset.mem_range]
  tauto

/-- The pixel scan computes exactly the min/max coordinates of the visible
pixel set, whenever that set is nonempty. -/
theorem scanImage_spec (img : Img) (hv : (visibleFinset img).Nonempty) :
    (scanImage img).minX = ((visibleFinset img).image Prod.fst).min' (hv.image _) ∧
    (scanImage img).minY = ((visibleFinset img).image Prod.snd).min' (hv.image _) ∧
    (scanImage img).maxX = ((visibleFinset img).image Prod.fst).max' (hv.image _) ∧
    (scanImage img).maxY = ((visibleFinset img).image Prod.snd).max' (hv.image _) := by
  obtain ⟨q, hq⟩ := hv
  obtain ⟨hq1, hq2, hq3⟩ := mem_visibleFinset.mp hq
  have hqc : q ∈ coords img.width img.height := mem_coords.mpr ⟨hq1, hq2⟩
  have hminq : (scanImage img).minX ≤ q.1 := scan_minX_le_of_mem img _ _ hqc hq3
  have hminqY : (scanImage img).minY ≤ q.2 := scan_minY_le_of_mem img _ _ hqc hq3
  have hmaxq : q.1 ≤ (scanImage img).maxX := scan_le_maxX_of_mem img _ _ hqc hq3
  have hmaxqY : q.2 ≤ (scanImage img).maxY := scan_le_maxY_of_mem img _ _ hqc hq3
  refine ⟨?_, ?_, ?_, ?_⟩
  · have hmem : (scanImage img).minX ∈ (visibleFinset img).image Prod.fst := by
      rcases scan_minX_attained img (coords img.width img.height) ⟨img.width, img.height, 0, 0⟩
        with h | ⟨p, hp, hpv, he⟩
      · exfalso
        have : (scanImage img).minX = img.width := h
        omega
      · obtain ⟨hp1, hp2⟩ := mem_coords.mp hp
        exact Finset.mem_image.mpr ⟨p, mem_visibleFinset.mpr ⟨hp1, hp2, hpv⟩, he.symm⟩
    refine le_antisymm ?_ (Finset.min'_le _ _ hmem)
    refine Finset.le_min' _ _ _ fun a ha => ?_
    obtain ⟨p, hpv, rfl⟩ := Finset.mem_image.mp ha
    obtain ⟨hp1, hp2, hp3⟩ := mem_visibleFinset.mp hpv
    exact scan_minX_le_of_mem img _ _ (mem_coords.mpr ⟨hp1, hp2⟩) hp3
  · have hmem : (scanImage img).minY ∈ (visibleFinset img).image Prod.snd := by
      rcases scan_minY_attained img (coords img.width img.height) ⟨img.width, img.height, 0, 0⟩
        with h | ⟨p, hp, hpv, he⟩
      · exfalso
        have : (scanImage img).minY = img.height := h
        omega
      · obtain ⟨hp1, hp2⟩ := mem_coords.mp hp
        exact Finset.mem_image.mpr ⟨p, mem_visibleFinset.mpr ⟨hp1, hp2, hpv⟩, he.symm⟩
    refine le_antisymm ?_ (Finset.min'_le _ _ hmem)
    refine Finset.le_min' _ _ _ fun a ha => ?_
    obtain ⟨p, hpv, rfl⟩ := Finset.mem_image.mp ha
    obtain ⟨hp1, hp2, hp3⟩ := mem_visibleFinset.mp hpv
    exact scan_minY_le_of_mem img _ _ (mem_coords.mpr ⟨hp1, hp2⟩) hp3
  · have hmem : (scanImage img).maxX ∈ (visibleFinset img).image Prod.fst := by
      rcases scan_maxX_attained img (coords img.width img.height) ⟨img.width, img.height, 0, 0⟩
        with h | ⟨p, hp, hpv, he⟩
      · have h0 : (scanImage img).maxX = 0 := h
        exact Finset.mem_image.mpr ⟨q, hq, by omega⟩
      · obtain ⟨hp1, hp2⟩ := mem_coords.mp hp
        exact Finset.mem_image.mpr ⟨p, mem_visibleFinset.mpr ⟨hp1, hp2, hpv⟩, he.symm⟩
    refine le_antisymm (Finset.le_max' _ _ hmem) ?_
    refine Finset.max'_le _ _ _ fun a ha => ?_
    obtain ⟨p, hpv, rfl⟩ := Finset.mem_image.mp ha
    obtain ⟨hp1, hp2, hp3⟩ := mem_visibleFinset.mp hpv
    exact scan_le_maxX_of_mem img _ _ (mem_coords.mpr ⟨hp1, hp2⟩) hp3
  · have hmem : (scanImage img).maxY ∈ (visibleFinset img).image Prod.snd := by
      rcases scan_maxY_attained img (coords img.width img.height) ⟨img.width, img.height, 0, 0⟩
        with h | ⟨p, hp, hpv, he⟩
      · have h0 : (scanImage img).maxY = 0 := h
        exact Finset.mem_image.mpr ⟨q, hq, by omega⟩
      · obtain ⟨hp1, hp2⟩ := mem_coords.mp hp
        exact Finset.mem_image.mpr ⟨p, mem_visibleFinset.mpr ⟨hp1, hp2, hpv⟩, he.symm⟩
    refine le_antisymm (Finset.le_max' _ _ hmem) ?_
    refine Finset.max'_le _ _ _ fun a ha => ?_
    obtain ⟨p, hpv, rfl⟩ := Finset.mem_image.mp ha
    obtain ⟨hp1, hp2, hp3⟩ := mem_visibleFinset.mp hpv
    exact scan_le_maxY_of_mem img _ _ (mem_coords.mpr ⟨hp1, hp2⟩) hp3

/-- Minimum x-coordinate over the visible pixels (spec-side description). -/
def visMinX (img : Img) (h : (visibleFinset img).Nonempty) : Nat :=
  ((visibleFinset img).image Prod.fst).min' (h.image _)

/-- Minimum y-coordinate over the visible pixels. -/
def visMinY (img : Img) (h : (visibleFinset img).Nonempty) : Nat :=
  ((visibleFinset img).image Prod.snd).min' (h.image _)

/-- Maximum x-coordinate over the visible pixels. -/
def visMaxX (img : Img) (h : (visibleFinset img).Nonempty) : Nat :=
  ((visibleFinset img).image Prod.fst).max' (h.image _)

/-- Maximum y-coordinate over the visible pixels. -/
def visMaxY (img : Img) (h : (visibleFinset img).Nonempty) : Nat :=
  ((visibleFinset img).image Prod.snd).max' (h.image _)

/-- When at least one visible pixel exists the tight-box branch is taken. -/
theorem get_image_bounds_visible (img : Img) (hv : (visibleFinset img).Nonempty) :
    get_image_bounds img =
      ⟨(scanImage img).minX, (scanImage img).minY,
       ((scanImage img).maxX : Int) - (scanImage img).minX + 1,
       ((scanImage img).maxY : Int) - (scanImage img).minY + 1,
       img.width, img.height⟩ := by
  obtain ⟨q, hq⟩ := hv
  obtain ⟨h1, h2, h3⟩ := mem_visibleFinset.mp hq
  have hqc : q ∈ coords img.width img.height := mem_coords.mpr ⟨h1, h2⟩
  have hnull : img.isNull = false := by
    simp only [Img.isNull, Bool.or_eq_false_iff, beq_eq_false_iff_ne, ne_eq]
    omega
  have hminx : (scanImage img).minX ≤ q.1 := scan_minX_le_of_mem img _ _ hqc h3
  have hmaxx : q.1 ≤ (scanImage img).maxX := scan_le_maxX_of_mem img _ _ hqc h3
  have hminy : (scanImage img).minY ≤ q.2 := scan_minY_le_of_mem img _ _ hqc h3
  have hmaxy : q.2 ≤ (scanImage img).maxY := scan_le_maxY_of_mem img _ _ hqc h3
  unfold get_image_bounds
  rw [hnull]
  simp only [Bool.false_eq_true, if_false]
  rw [if_neg]
  omega

/-- A 64x64 test image whose opaque pixels are exactly rows `[10,50)` and
columns `[20,60)`. -/
def squareImg : Img :=
  ⟨64, 64, fun x y => if 20 ≤ x ∧ x < 60 ∧ 10 ≤ y ∧ y < 50 then 255 else 0⟩

theorem squareImg_visible :
    visibleFinset squareImg = Finset.Ico 20 60 ×ˢ Finset.Ico 10 50 := by
  ext p
  rw [mem_visibleFinset, Finset.mem_product, Finset.mem_Ico, Finset.mem_Ico]
  show p.1 < 64 ∧ p.2 < 64 ∧
      10 < (if 20 ≤ p.1 ∧ p.1 < 60 ∧ 10 ≤ p.2 ∧ p.2 < 50 then 255 else 0) ↔ _
  split_ifs with h
  · omega
  · omega

theorem squareImg_visible_nonempty : (visibleFinset squareImg).Nonempty := by
  refine ⟨(20, 10), ?_⟩
  rw [squareImg_visible]
  exact Finset.mem_product.mpr
    ⟨Finset.mem_Ico.mpr ⟨le_refl _, by norm_num⟩,
     Finset.mem_Ico.mpr ⟨le_refl _, by norm_num⟩⟩

theorem squareImg_scan : scanImage squareImg = ⟨20, 10, 59, 49⟩ := by
  have hv := squareImg_visible_nonempty
  obtain ⟨e1, e2, e3, e4⟩ := scanImage_spec squareImg hv
  have hmem : ((20, 10) : Nat × Nat) ∈ visibleFinset squareImg := by
    rw [squareImg_visible]
    exact Finset.mem_product.mpr
      ⟨Finset.mem_Ico.mpr ⟨le_refl _, by norm_num⟩,
       Finset.mem_Ico.mpr ⟨le_refl _, by norm_num⟩⟩
  have hmem2 : ((59, 49) : Nat × Nat) ∈ visibleFinset squareImg := by
    rw [squareImg_visible]
    exact Finset.mem_product.mpr
      ⟨Finset.mem_Ico.mpr ⟨by norm_num, by norm_num⟩,
       Finset.mem_Ico.mpr ⟨by norm_num, by norm_num⟩⟩
  have hrange : ∀ p ∈ visibleFinset squareImg,
      20 ≤ p.1 ∧ p.1 ≤ 59 ∧ 10 ≤ p.2 ∧ p.2 ≤ 49 := by
    intro p hp
    rw [squareImg_visible] at hp
    obtain ⟨hp1, hp2⟩ := Finset.mem_product.mp hp
    rw [Finset.mem_Ico] at hp1 hp2
    omega
  have hminx : (scanImage squareImg).minX = 20 := by
    rw [e1]
    refine le_antisymm
      (Finset.min'_le _ _ (Finset.mem_image.mpr ⟨(20, 10), hmem, rfl⟩))
      (Finset.le_min' _ _ _ fun a ha => ?_)
    obtain ⟨p, hp, rfl⟩ := Finset.mem_image.mp ha
    exact (hrange p hp).1
  have hminy : (scanImage squareImg).minY = 10 := by
    rw [e2]
    refine le_antisymm
      (Finset.min'_le _ _ (Finset.mem_image.mpr ⟨(20, 10), hmem, rfl⟩))
      (Finset.le_min' _ _ _ fun a ha => ?_)
    obtain ⟨p, hp, rfl⟩ := Finset.mem_image.mp ha
    exact (hrange p hp).2.2.1
  have hmaxx : (scanImage squareImg).maxX = 59 := by
    rw [e3]
    refine le_antisymm (Finset.max'_le _ _ _ fun a ha => ?_)
      (Finset.le_max' ((visibleFinset squareImg).image Prod.fst) 59
        (Finset.mem_image.mpr ⟨(59, 49), hmem2, rfl⟩))
    obtain ⟨p, hp, rfl⟩ := Finset.mem_image.mp ha
    exact (hrange p hp).2.1
  have hmaxy : (scanImage squareImg).maxY = 49 := by
    rw [e4]
    refine le_antisymm (Finset.max'_le _ _ _ fun a ha => ?_)
      (Finset.le_max' ((visibleFinset squareImg).image Prod.snd) 49
        (Finset.mem_image.mpr ⟨(59, 49), hmem2, rfl⟩))
    obtain ⟨p, hp, rfl⟩ := Finset.mem_image.mp ha
    exact (hrange p hp).2.2.2
  cases hs : scanImage squareImg
  rw [hs] at hminx hminy hmaxx hmaxy
  simp only at hminx hminy hmaxx hmaxy
  subst hminx
  subst hminy
  subst hmaxx
  subst hmaxy
  rfl

theorem squareImg_bounds : get_image_bounds squareImg = ⟨20, 10, 40, 40, 64, 64⟩ := by
  rw [get_image_bounds_visible squareImg squareImg_visible_nonempty, squareImg_scan]
  rfl

/-- C1: for every image with at least one pixel of alpha strictly above 10,
`get_image_bounds` returns the tight bounding box of exactly those pixels
(`x = minX`, `y = minY`, `width = maxX - minX + 1`,
`height = maxY - minY + 1`, min/max ranging over all pixels with alpha
above 10); in particular an image whose above-threshold pixels form a solid
square over rows `[10,50)` and columns `[20,60)` yields
`x=20, y=10, width=40, height=40`. -/
theorem C1_tight_bounding_box (img : Img) (hv : (visibleFinset img).Nonempty) :
    (get_image_bounds img).x = (visMinX img hv : Int) ∧
    (get_image_bounds img).y = (visMinY img hv : Int) ∧
    (get_image_bounds img).width = (visMaxX img hv : Int) - (visMinX img hv) + 1 ∧
    (get_image_bounds img).height = (visMaxY img hv : Int) - (visMinY img hv) + 1 ∧
    get_image_bounds squareImg = ⟨20, 10, 40, 40, 64, 64⟩ := by
  obtain ⟨e1, e2, e3, e4⟩ := scanImage_spec img hv
  rw [get_image_bounds_visible img hv]
  have r1 : visMinX img hv = (scanImage img).minX := e1.symm
  have r2 : visMinY img hv = (scanImage img).minY := e2.symm
  have r3 : visMaxX img hv = (scanImage img).maxX := e3.symm
  have r4 : visMaxY img hv = (scanImage img).maxY := e4.symm
  refine ⟨?_, ?_, ?_, ?_, squareImg_bounds⟩ <;>
    simp only [r1, r2, r3, r4]

/-- Witness for C1 at the concrete square image. -/
theorem C1_tight_bounding_box_witness :
    get_image_bounds squareImg = ⟨20, 10, 40, 40, 64, 64⟩ :=
  (C1_tight_bounding_box squareImg
    ⟨(20, 10), mem_visibleFinset.mpr (by decide)⟩).2.2.2.2

/-- C2: for every non-null image all of whose pixels have alpha at most 10,
`get_image_bounds` returns the full image extent, on which `is_full` holds. -/
theorem C2_fully_transparent_full_extent (img : Img) (hnull : img.isNull = false)
    (h : ∀ x, x < img.width → ∀ y, y < img.height → img.alpha x y ≤ 10) :
    get_image_bounds img =
      ⟨0, 0, img.width, img.height, img.width, img.height⟩ ∧
    (get_image_bounds img).is_full = true := by
  have hw : 0 < img.width ∧ 0 < img.height := by
    simp only [Img.isNull, Bool.or_eq_false_iff, beq_eq_false_iff_ne, ne_eq] at hnull
    omega
  have hscan : scanImage img = ⟨img.width, img.height, 0, 0⟩ := by
    unfold scanImage
    refine scan_no_visible img _ _ fun p hp => ?_
    obtain ⟨h1, h2⟩ := mem_coords.mp hp
    have := h p.1 h1 p.2 h2
    omega
  have hge : get_image_bounds img =
      ⟨0, 0, img.width, img.height, img.width, img.height⟩ := by
    unfold get_image_bounds
    rw [hnull]
    simp only [Bool.false_eq_true, if_false]
    rw [hscan, if_pos]
    exact Or.inl hw.1
  refine ⟨hge, ?_⟩
  rw [hge]
  simp [IconBounds.is_full]

/-- A fully transparent 4x4 image. -/
def transparentImg : Img := ⟨4, 4, fun _ _ => 0⟩

/-- Witness for C2 at a concrete fully transparent image. -/
theorem C2_fully_transparent_full_extent_witness :
    get_image_bounds transparentImg = ⟨0, 0, 4, 4, 4, 4⟩ ∧
    (get_image_bounds transparentImg).is_full = true :=
  C2_fully_transparent_full_extent transparentImg rfl (by decide)

/-- C6: every `IconBounds` returned by `get_image_bounds` satisfies the
ContentBounds invariants `0 ≤ x`, `x + width ≤ image_width`, `0 ≤ y`,
`y + height ≤ image_height`, `0 ≤ width`, `0 ≤ height`, in all three
return branches. -/
theorem C6_bounds_invariants (img : Img) :
    0 ≤ (get_image_bounds img).x ∧
    (get_image_bounds img).x + (get_image_bounds img).width ≤
      (get_image_bounds img).image_width ∧
    0 ≤ (get_image_bounds img).y ∧
    (get_image_bounds img).y + (get_image_bounds img).height ≤
      (get_image_bounds img).image_height ∧
    0 ≤ (get_image_bounds img).width ∧
    0 ≤ (get_image_bounds img).height := by
  cases hn : img.isNull with
  | true =>
    have he : get_image_bounds img = ⟨0, 0, 0, 0, 0, 0⟩ := by
      unfold get_image_bounds
      rw [hn]
      rfl
    rw [he]
    refine ⟨le_refl _, le_refl _, le_refl _, le_refl _, le_refl _, le_refl _⟩
  | false =>
    have hw : 0 < img.width ∧ 0 < img.height := by
      simp only [Img.isNull, Bool.or_eq_false_iff, beq_eq_false_iff_ne, ne_eq] at hn
      omega
    have hmx : (scanImage img).maxX < img.width := by
      unfold scanImage
      exact scan_maxX_lt img _ _ _ (fun p hp => (mem_coords.mp hp).1) hw.1
    have hmy : (scanImage img).maxY < img.height := by
      unfold scanImage
      exact scan_maxY_lt img _ _ _ (fun p hp => (mem_coords.mp hp).2) hw.2
    unfold get_image_bounds
    rw [hn]
    simp only [Bool.false_eq_true, if_false]
    by_cases hc : (scanImage img).maxX < (scanImage img).minX ∨
        (scanImage img).maxY < (scanImage img).minY
    · rw [if_pos hc]
      dsimp only
      omega
    · rw [if_neg hc]
      dsimp only
      push_neg at hc
      omega

/-- C9: a null (undecodable) image yields the default all-zero bounds, on
which `is_full` and `is_empty` are simultaneously true. -/
theorem C9_null_image_default_bounds (img : Img) (h : img.isNull = true) :
    get_image_bounds img = ⟨0, 0, 0, 0, 0, 0⟩ ∧
    (get_image_bounds img).is_full = true ∧
    (get_image_bounds img).is_empty = true := by
  have he : get_image_bounds img = ⟨0, 0, 0, 0, 0, 0⟩ := by
    unfold get_image_bounds
    rw [h]
    rfl
  exact ⟨he, by rw [he]; rfl, by rw [he]; rfl⟩

/-- A null image (one dimension zero), as produced by a failed decode. -/
def nullImg : Img := ⟨0, 5, fun _ _ => 255⟩

/-- Witness for C9 at a concrete null image. -/
theorem C9_null_image_default_bounds_witness :
    get_image_bounds nullImg = ⟨0, 0, 0, 0, 0, 0⟩ ∧
    (get_image_bounds nullImg).is_full = true ∧
    (get_image_bounds nullImg).is_empty = true :=
  C9_null_image_default_bounds nullImg rfl

/-! ### Rendering model

Painting is modelled geometrically: a canvas records its construction
(`QImage(w, h, Format_ARGB32)` followed by `fill(transparent)`) and the
draw operations performed on it, each with the placement geometry the
painter transform gives it. -/

/-- Pixel formats (only ARGB32 is used by the renderer). -/
inductive QImageFormat where
  | ARGB32
  | RGB32
deriving DecidableEq, Repr

/-- Fill colors used with `QImage.fill`. -/
inductive GlobalColor where
  | transparent
  | white
deriving DecidableEq, Repr

/-- An axis-aligned rectangle with integer coordinates (a `QRectF` whose
corners happen to be integral, as built from `IconBounds` fields). -/
structure RectI where
  x : Int
  y : Int
  w : Int
  h : Int
deriving DecidableEq, Repr

/-- An axis-aligned rectangle with rational coordinates (placement under
the painter's affine transform; Python floats modelled exactly). -/
structure RectQ where
  x : ℚ
  y : ℚ
  w : ℚ
  h : ℚ
deriving DecidableEq, Repr

/-- One draw operation on the output canvas. -/
inductive DrawOp where
  | drawImage (x y : Int) (w h : Nat)
  | renderSvg (r : RectQ)
deriving DecidableEq, Repr

/-- The produced raster image: dimensions, pixel format, initial fill, and
the draw operations painted over that fill. -/
structure Canvas where
  width : Nat
  height : Nat
  format : QImageFormat
  background : GlobalColor
  ops : List DrawOp
deriving DecidableEq, Repr

/-- `QImage(w, h, Format_ARGB32)` followed by `fill(transparent)`. -/
def mkCanvas (w h : Nat) : Canvas :=
  ⟨w, h, QImageFormat.ARGB32, GlobalColor.transparent, []⟩

/-- Destination-rectangle selection shared verbatim by
`render_svg_cropped` and `render_png_to_bounds`:
`target.bounds` when present and not full, else the whole canvas. -/
def destRect (t : IconTarget) : RectI :=
  match t.bounds with
  | some b =>
    if b.is_full then ⟨0, 0, t.width, t.height⟩
    else ⟨b.x, b.y, b.width, b.height⟩
  | none => ⟨0, 0, t.width, t.height⟩

/-- `QSize::scaled` with `Qt::KeepAspectRatio` (Qt integer arithmetic):
the largest size fitting inside `(sw, sh)` with the aspect ratio of
`(wd, ht)`. -/
def qsizeScaledKeep (wd ht sw sh : Nat) : Nat × Nat :=
  if wd = 0 ∨ ht = 0 then (sw, sh)
  else
    let rw := sh * wd / ht
    if rw ≤ sw then (rw, sh) else (sw, sw * ht / wd)

/-- Dimensions of `QImage::scaled(sw, sh, KeepAspectRatio)`: a null source
or an empty requested size yields a null image. -/
def qimageScaledDims (srcW srcH : Nat) (sw sh : Int) : Nat × Nat :=
  if srcW = 0 ∨ srcH = 0 then (0, 0)
  else if sw ≤ 0 ∨ sh ≤ 0 then (0, 0)
  else qsizeScaledKeep srcW srcH sw.toNat sh.toNat

/-- Python `int()` on an exact rational: truncation toward zero. -/
def pyInt (q : ℚ) : Int :=
  if q < 0 then -(⌊-q⌋) else ⌊q⌋

/-- `render_png_to_bounds` from `rendering/renderer.py`: render a PNG
override into the target's content bounds. -/
def render_png_to_bounds (source : Img) (target : IconTarget) : Canvas :=
  let image := mkCanvas target.width target.height
  if source.isNull then image
  else
    let dest := destRect target
    let source_bounds := get_image_bounds source
    let cropped : Nat × Nat :=
      if !source_bounds.is_full && !source_bounds.is_empty then
        (source_bounds.width.toNat, source_bounds.height.toNat)
      else (source.width, source.height)
    let scaled := qimageScaledDims cropped.1 cropped.2 dest.w dest.h
    let offset_x : ℚ := (dest.x : ℚ) + ((dest.w : ℚ) - (scaled.1 : ℚ)) / 2
    let offset_y : ℚ := (dest.y : ℚ) + ((dest.h : ℚ) - (scaled.2 : ℚ)) / 2
    { image with
      ops := [DrawOp.drawImage (pyInt offset_x) (pyInt offset_y) scaled.1 scaled.2] }

/-- A parsed vector document: its `defaultSize` (a `QSize`). -/
structure Svg where
  defaultW : Int
  defaultH : Int
deriving DecidableEq, Repr

/-- `QSize::isEmpty`: width or height less than 1. -/
def sizeIsEmpty (w h : Int) : Bool :=
  w < 1 || h < 1

/-- The svg size used by the cropping branch: `renderer.defaultSize()`,
replaced by `QSize(image_width, image_height)` when empty. -/
def effectiveSvgSize (r : Svg) (b : IconBounds) : Int × Int :=
  if sizeIsEmpty r.defaultW r.defaultH then (b.image_width, b.image_height)
  else (r.defaultW, r.defaultH)

/-- The uniform scale factor of the cropping branch:
`min(destWidth / contentWidth, destHeight / contentHeight)`. -/
def cropScale (dest : RectI) (cw ch : ℚ) : ℚ :=
  min ((dest.w : ℚ) / cw) ((dest.h : ℚ) / ch)

/-- Placement of the full svg document under the cropping branch's
composed transform `translate(offset) ∘ scale(scale) ∘ translate(-content)`
applied to the render rectangle `QRectF(0, 0, svgW, svgH)`. -/
def cropPlacement (r : Svg) (dest : RectI) (b : IconBounds) : RectQ :=
  let S := effectiveSvgSize r b
  let scale_x : ℚ := (S.1 : ℚ) / (b.image_width : ℚ)
  let scale_y : ℚ := (S.2 : ℚ) / (b.image_height : ℚ)
  let content_x : ℚ := (b.x : ℚ) * scale_x
  let content_y : ℚ := (b.y : ℚ) * scale_y
  let content_w : ℚ := (b.width : ℚ) * scale_x
  let content_h : ℚ := (b.height : ℚ) * scale_y
  let scale := cropScale dest content_w content_h
  let scaled_w := content_w * scale
  let scaled_h := content_h * scale
  let offset_x : ℚ := (dest.x : ℚ) + ((dest.w : ℚ) - scaled_w) / 2
  let offset_y : ℚ := (dest.y : ℚ) + ((dest.h : ℚ) - scaled_h) / 2
  ⟨offset_x - scale * content_x, offset_y - scale * content_y,
   scale * (S.1 : ℚ), scale * (S.2 : ℚ)⟩

/-- `render_svg_cropped` from `rendering/renderer.py`: render the svg into
the target, cropping svg padding when the measured bounds are neither full
nor empty, otherwise rendering directly into the destination rectangle. -/
def render_svg_cropped (r : Svg) (target : IconTarget) (svg_bounds : IconBounds) : Canvas :=
  let image := mkCanvas target.width target.height
  let dest := destRect target
  if !svg_bounds.is_full && !svg_bounds.is_empty then
    { image with ops := [DrawOp.renderSvg (cropPlacement r dest svg_bounds)] }
  else
    { image with ops := [DrawOp.renderSvg
        ⟨(dest.x : ℚ), (dest.y : ℚ), (dest.w : ℚ), (dest.h : ℚ)⟩] }

/-- The cropping branch of `render_svg_cropped` taken unconditionally:
what the crop-scale-center transform path would produce for the same
inputs (comparison arm for the full-bounds short-circuit equivalence). -/
def render_svg_crop_branch (r : Svg) (target : IconTarget) (svg_bounds : IconBounds) : Canvas :=
  let image := mkCanvas target.width target.height
  let dest := destRect target
  { image with ops := [DrawOp.renderSvg (cropPlacement r dest svg_bounds)] }

/-! ### Scale-to-fit lemmas -/

theorem qsizeScaledKeep_fits (wd ht sw sh : Nat) :
    (qsizeScaledKeep wd ht sw sh).1 ≤ sw ∧ (qsizeScaledKeep wd ht sw sh).2 ≤ sh := by
  unfold qsizeScaledKeep
  split
  · exact ⟨le_refl _, le_refl _⟩
  · rename_i hwh
    push_neg at hwh
    have hwd : 0 < wd := Nat.pos_of_ne_zero hwh.1
    have hht : 0 < ht := Nat.pos_of_ne_zero hwh.2
    by_cases hrw : sh * wd / ht ≤ sw
    · rw [if_pos hrw]
      exact ⟨hrw, le_refl _⟩
    · rw [if_neg hrw]
      refine ⟨le_refl _, ?_⟩
      push_neg at hrw
      have h1 : (sw + 1) * ht ≤ sh * wd := (Nat.le_div_iff_mul_le hht).mp hrw
      have h2 : sw * ht ≤ sh * wd := le_trans (by nlinarith) h1
      calc sw * ht / wd ≤ sh * wd / wd := Nat.div_le_div_right h2
        _ = sh := Nat.mul_div_cancel sh hwd

theorem qimageScaledDims_fits (a b : Nat) (sw sh : Int) :
    (qimageScaledDims a b sw sh).1 ≤ sw.toNat ∧
    (qimageScaledDims a b sw sh).2 ≤ sh.toNat := by
  unfold qimageScaledDims
  split
  · exact ⟨Nat.zero_le _, Nat.zero_le _⟩
  · split
    · exact ⟨Nat.zero_le _, Nat.zero_le _⟩
    · exact qsizeScaledKeep_fits a b sw.toNat sh.toNat

/-- C3: in the cropping branch, the uniform scale factor is
`min(destW/contentW, destH/contentH)`; the scaled content dimensions never
exceed the destination rectangle and the centering offsets are each
nonnegative; the raster compositor's aspect-fit placement
(`qimageScaledDims`) satisfies the same fit-and-center property. -/
theorem C3_scale_to_fit_and_center (dest : RectI) (cw ch : ℚ) (a b : Nat) (sw sh : Int)
    (hcw : 0 < cw) (hch : 0 < ch) (hsw : 0 ≤ sw) (hsh : 0 ≤ sh) :
    cropScale dest cw ch = min ((dest.w : ℚ) / cw) ((dest.h : ℚ) / ch) ∧
    cw * cropScale dest cw ch ≤ (dest.w : ℚ) ∧
    ch * cropScale dest cw ch ≤ (dest.h : ℚ) ∧
    0 ≤ ((dest.w : ℚ) - cw * cropScale dest cw ch) / 2 ∧
    0 ≤ ((dest.h : ℚ) - ch * cropScale dest cw ch) / 2 ∧
    ((qimageScaledDims a b sw sh).1 : Int) ≤ sw ∧
    ((qimageScaledDims a b sw sh).2 : Int) ≤ sh ∧
    0 ≤ ((sw : ℚ) - ((qimageScaledDims a b sw sh).1 : ℚ)) / 2 ∧
    0 ≤ ((sh : ℚ) - ((qimageScaledDims a b sw sh).2 : ℚ)) / 2 := by
  have hfitw : cw * cropScale dest cw ch ≤ (dest.w : ℚ) := by
    calc cw * cropScale dest cw ch ≤ cw * ((dest.w : ℚ) / cw) :=
          mul_le_mul_of_nonneg_left (min_le_left _ _) hcw.le
      _ = (dest.w : ℚ) := mul_div_cancel₀ _ (ne_of_gt hcw)
  have hfith : ch * cropScale dest cw ch ≤ (dest.h : ℚ) := by
    calc ch * cropScale dest cw ch ≤ ch * ((dest.h : ℚ) / ch) :=
          mul_le_mul_of_nonneg_left (min_le_right _ _) hch.le
      _ = (dest.h : ℚ) := mul_div_cancel₀ _ (ne_of_gt hch)
  obtain ⟨hq1, hq2⟩ := qimageScaledDims_fits a b sw sh
  have hi1 : ((qimageScaledDims a b sw sh).1 : Int) ≤ sw := by omega
  have hi2 : ((qimageScaledDims a b sw sh).2 : Int) ≤ sh := by omega
  have hr1 : ((qimageScaledDims a b sw sh).1 : ℚ) ≤ (sw : ℚ) := by
    exact_mod_cast hi1
  have hr2 : ((qimageScaledDims a b sw sh).2 : ℚ) ≤ (sh : ℚ) := by
    exact_mod_cast hi2
  refine ⟨rfl, hfitw, hfith, ?_, ?_, hi1, hi2, ?_, ?_⟩
  · exact div_nonneg (sub_nonneg.mpr hfitw) (by norm_num)
  · exact div_nonneg (sub_nonneg.mpr hfith) (by norm_num)
  · exact div_nonneg (sub_nonneg.mpr hr1) (by norm_num)
  · exact div_nonneg (sub_nonneg.mpr hr2) (by norm_num)

/-- Witness for C3 at concrete inputs. -/
theorem C3_scale_to_fit_and_center_witness :
    (2 : ℚ) * cropScale ⟨0, 0, 100, 50⟩ 2 1 ≤ ((100 : Int) : ℚ) ∧
    ((qimageScaledDims 30 30 100 50).1 : Int) ≤ 100 :=
  ⟨(C3_scale_to_fit_and_center ⟨0, 0, 100, 50⟩ 2 1 30 30 100 50
      (by norm_num) (by norm_num) (by norm_num) (by norm_num)).2.1,
   (C3_scale_to_fit_and_center ⟨0, 0, 100, 50⟩ 2 1 30 30 100 50
      (by norm_num) (by norm_num) (by norm_num) (by norm_num)).2.2.2.2.2.1⟩

/-- C4: the destination rectangle used by both renderers equals the
target's content bounds when present and not full, and the entire canvas
otherwise. -/
theorem C4_destination_rectangle (t : IconTarget) (b : IconBounds) :
    (t.bounds = some b → b.is_full = false →
      destRect t = ⟨b.x, b.y, b.width, b.height⟩) ∧
    (t.bounds = some b → b.is_full = true →
      destRect t = ⟨0, 0, (t.width : Int), (t.height : Int)⟩) ∧
    (t.bounds = none →
      destRect t = ⟨0, 0, (t.width : Int), (t.height : Int)⟩) := by
  refine ⟨?_, ?_, ?_⟩
  · intro hb hf
    unfold destRect
    rw [hb]
    simp only [hf, Bool.false_eq_true, if_false]
  · intro hb hf
    unfold destRect
    rw [hb]
    simp only [hf, if_true]
  · intro hb
    unfold destRect
    rw [hb]

/-- A concrete adaptive-icon-style target: 108x108 canvas with a 40x40
safe-zone destination bounds at (34, 34). -/
def adaptiveTarget : IconTarget :=
  ⟨"ic_launcher_foreground", 108, 108, "res/mipmap/ic.png", "android",
    some ⟨34, 34, 40, 40, 108, 108⟩, none⟩

/-- Witness for C4 at a concrete target with non-full bounds. -/
theorem C4_destination_rectangle_witness :
    destRect adaptiveTarget = ⟨34, 34, 40, 40⟩ :=
  (C4_destination_rectangle adaptiveTarget ⟨34, 34, 40, 40, 108, 108⟩).1
    rfl rfl

/-- C5: `render_png_to_bounds` is total (never raises); its output always
has the target's dimensions, and a null (undecodable) source yields
exactly the fully transparent canvas, failure being signalled only
through this result. -/
theorem C5_png_null_source_transparent (source : Img) (t : IconTarget) :
    (render_png_to_bounds source t).width = t.width ∧
    (render_png_to_bounds source t).height = t.height ∧
    (source.isNull = true →
      render_png_to_bounds source t = mkCanvas t.width t.height) := by
  have hnull : source.isNull = true →
      render_png_to_bounds source t = mkCanvas t.width t.height := by
    intro h
    unfold render_png_to_bounds
    rw [h]
    rfl
  refine ⟨?_, ?_, hnull⟩
  · unfold render_png_to_bounds
    split <;> rfl
  · unfold render_png_to_bounds
    split <;> rfl

/-- Witness for C5 at a concrete null source. -/
theorem C5_png_null_source_transparent_witness :
    render_png_to_bounds nullImg adaptiveTarget = mkCanvas 108 108 :=
  (C5_png_null_source_transparent nullImg adaptiveTarget).2.2 rfl

/-- C8: for every input, both renderers return a canvas of exactly
`target.width x target.height` in ARGB32 format, initialized fully
transparent before any drawing. -/
theorem C8_output_canvas_format (r : Svg) (t : IconTarget) (sb : IconBounds)
    (source : Img) :
    (render_svg_cropped r t sb).width = t.width ∧
    (render_svg_cropped r t sb).height = t.height ∧
    (render_svg_cropped r t sb).format = QImageFormat.ARGB32 ∧
    (render_svg_cropped r t sb).background = GlobalColor.transparent ∧
    (render_png_to_bounds source t).width = t.width ∧
    (render_png_to_bounds source t).height = t.height ∧
    (render_png_to_bounds source t).format = QImageFormat.ARGB32 ∧
    (render_png_to_bounds source t).background = GlobalColor.transparent := by
  unfold render_svg_cropped render_png_to_bounds
  constructor
  · split <;> rfl
  constructor
  · split <;> rfl
  constructor
  · split <;> rfl
  constructor
  · split <;> rfl
  constructor
  · split <;> rfl
  constructor
  · split <;> rfl
  constructor
  · split <;> rfl
  · split <;> rfl

/-! ### Full-bounds short-circuit vs cropping branch -/

/-- A vector document with natural size 2x1 (wide aspect). -/
def wideSvg : Svg := ⟨2, 1⟩

/-- Full measured bounds on a 512x512 measurement render. -/
def fullBounds512 : IconBounds := ⟨0, 0, 512, 512, 512, 512⟩

/-- A 100x100 target without destination bounds. -/
def squareTarget100 : IconTarget := ⟨"t", 100, 100, "out.png", "ios", none, none⟩

/-- A 200x100 target without destination bounds (aspect matching `wideSvg`). -/
def wideTarget200 : IconTarget := ⟨"t2", 200, 100, "out2.png", "ios", none, none⟩


/-- Counterexample to C7 as stated: with full measured bounds, a 2x1 svg
and a square 100x100 target, the direct short-circuit stretches the svg
over the whole destination rectangle while the cropping path would
letterbox it at scale 50 (placement `(0, 25, 100, 50)`). -/
theorem C7_counterexample :
    render_svg_cropped wideSvg squareTarget100 fullBounds512 ≠
      render_svg_crop_branch wideSvg squareTarget100 fullBounds512 := by
  have hc : (!fullBounds512.is_full && !fullBounds512.is_empty) = false := rfl
  have h1 : render_svg_cropped wideSvg squareTarget100 fullBounds512 =
      ⟨100, 100, QImageFormat.ARGB32, GlobalColor.transparent,
        [DrawOp.renderSvg ⟨0, 0, 100, 100⟩]⟩ := by
    simp only [render_svg_cropped, hc, Bool.false_eq_true, if_false, mkCanvas]
    norm_num [destRect, squareTarget100, Canvas.mk.injEq, DrawOp.renderSvg.injEq,
      RectQ.mk.injEq]
  have h2 : render_svg_crop_branch wideSvg squareTarget100 fullBounds512 =
      ⟨100, 100, QImageFormat.ARGB32, GlobalColor.transparent,
        [DrawOp.renderSvg ⟨0, 25, 100, 50⟩]⟩ := by
    simp only [render_svg_crop_branch, mkCanvas, cropPlacement, cropScale,
      effectiveSvgSize, sizeIsEmpty, wideSvg, fullBounds512, destRect, squareTarget100]
    norm_num [Canvas.mk.injEq, DrawOp.renderSvg.injEq, RectQ.mk.injEq, min_def]
  intro heq
  rw [h1, h2] at heq
  simp only [Canvas.mk.injEq, List.cons.injEq, DrawOp.renderSvg.injEq,
    RectQ.mk.injEq, true_and, and_true] at heq
  norm_num at heq

/-- C7 (amended): when the measured source bounds are full and the
effective svg size has the same aspect ratio as the destination rectangle
(in particular for square svg canvases rendered into square destinations),
the full-bounds short-circuit of `render_svg_cropped` produces exactly what
the cropping branch would produce on the same inputs; without the aspect
condition the two branches differ (see the counterexample). -/
theorem C7_full_bounds_equivalence (r : Svg) (t : IconTarget) (b : IconBounds)
    (hfull : b.is_full = true)
    (hiw : 0 < b.image_width) (hih : 0 < b.image_height)
    (hS1 : 0 < (effectiveSvgSize r b).1) (hS2 : 0 < (effectiveSvgSize r b).2)
    (haspect : (effectiveSvgSize r b).1 * (destRect t).h
      = (effectiveSvgSize r b).2 * (destRect t).w) :
    render_svg_cropped r t b = render_svg_crop_branch r t b := by
  obtain ⟨⟨⟨hx0, hy0⟩, hwiw⟩, hhih⟩ :
      ((b.x = 0 ∧ b.y = 0) ∧ b.width = b.image_width) ∧ b.height = b.image_height := by
    simpa [IconBounds.is_full, Bool.and_eq_true, beq_iff_eq] using hfull
  set S := effectiveSvgSize r b with hS
  set D := destRect t with hD
  have hiwQ : (b.image_width : ℚ) ≠ 0 := by exact_mod_cast hiw.ne'
  have hihQ : (b.image_height : ℚ) ≠ 0 := by exact_mod_cast hih.ne'
  have hS1Q : (S.1 : ℚ) ≠ 0 := by exact_mod_cast hS1.ne'
  have hS2Q : (S.2 : ℚ) ≠ 0 := by exact_mod_cast hS2.ne'
  have haspectQ : (S.1 : ℚ) * (D.h : ℚ) = (S.2 : ℚ) * (D.w : ℚ) := by
    exact_mod_cast haspect
  have hplace : cropPlacement r D b = ⟨(D.x : ℚ), (D.y : ℚ), (D.w : ℚ), (D.h : ℚ)⟩ := by
    unfold cropPlacement cropScale
    rw [← hS]
    simp only [hx0, hy0, hwiw, hhih, Int.cast_zero, zero_mul, mul_zero, sub_zero]
    have hcw : (b.image_width : ℚ) * ((S.1 : ℚ) / (b.image_width : ℚ)) = (S.1 : ℚ) := by
      rw [mul_comm]
      exact div_mul_cancel₀ _ hiwQ
    have hch : (b.image_height : ℚ) * ((S.2 : ℚ) / (b.image_height : ℚ)) = (S.2 : ℚ) := by
      rw [mul_comm]
      exact div_mul_cancel₀ _ hihQ
    rw [hcw, hch]
    have heq : (D.h : ℚ) / (S.2 : ℚ) = (D.w : ℚ) / (S.1 : ℚ) := by
      rw [div_eq_div_iff hS2Q hS1Q]
      linarith [haspectQ]
    rw [heq, min_self]
    have h1 : (S.1 : ℚ) * ((D.w : ℚ) / (S.1 : ℚ)) = (D.w : ℚ) := by
      rw [mul_comm]
      exact div_mul_cancel₀ _ hS1Q
    have h2 : (S.2 : ℚ) * ((D.w : ℚ) / (S.1 : ℚ)) = (D.h : ℚ) := by
      field_simp
      linarith [haspectQ]
    simp only [RectQ.mk.injEq]
    refine ⟨?_, ?_, ?_, ?_⟩
    · rw [h1]
      ring
    · rw [h2]
      ring
    · rw [mul_comm] at h1
      rw [h1]
    · rw [mul_comm] at h2
      rw [h2]
  have hcond : (!b.is_full && !b.is_empty) = false := by
    rw [hfull]
    rfl
  simp only [render_svg_cropped, render_svg_crop_branch]
  rw [← hD, hcond]
  simp only [Bool.false_eq_true, if_false]
  rw [hplace]

/-- Witness for the amended C7 at an aspect-matched concrete input
(2x1 svg into a 200x100 target). -/
theorem C7_full_bounds_equivalence_witness :
    render_svg_cropped wideSvg wideTarget200 fullBounds512 =
      render_svg_crop_branch wideSvg wideTarget200 fullBounds512 :=
  C7_full_bounds_equivalence wideSvg wideTarget200 fullBounds512 rfl
    (by decide) (by decide) (by decide) (by decide) (by decide)

/-! ### Config loading (`core/models.py`, `Config.load`)

The filesystem and `json.load` are modelled by the outcome they hand the
function: `none` when the path does not exist, `some none` when the file
exists but raises `json.JSONDecodeError`, and `some (some j)` when it
decodes to the JSON value `j`.  Python exceptions escaping the call are
modelled with `Except.error`. -/

/-- A decoded JSON value as `json.load` returns it. -/
inductive Json where
  | null
  | bool (b : Bool)
  | num (q : ℚ)
  | str (s : String)
  | arr (elems : List Json)
  | obj (entries : List (String × Json))

/-- `dict.get(key, default)` on a decoded JSON object (decoded Python
dicts have unique keys, so first match suffices). -/
def dictGet (entries : List (String × Json)) (key : String) (dflt : Json) : Json :=
  match entries.lookup key with
  | some v => v
  | none => dflt

/-- The `Config` dataclass: loaded fields keep whatever JSON value the
file held (Python attaches no types), with the dataclass defaults
`None`, `{}`, `[]`, `None`. -/
structure Config where
  default_svg : Json := Json.null
  overrides : Json := Json.obj []
  disabled : Json := Json.arr []
  last_browse_dir : Json := Json.null

/-- `Config.load` from `core/models.py`: default config when the path is
missing or decoding raises `JSONDecodeError` (caught, together with
`KeyError`); fields read with `data.get(...)` when the value is a dict;
`data.get` on any non-dict decoded value raises `AttributeError`, which
the `except` clause does not catch. -/
def Config.load (file : Option (Option Json)) : Except String Config :=
  match file with
  | none => Except.ok {}
  | some none => Except.ok {}
  | some (some (Json.obj entries)) =>
      Except.ok
        { default_svg := dictGet entries "default_svg" Json.null,
          overrides := dictGet entries "overrides" (Json.obj []),
          disabled := dictGet entries "disabled" (Json.arr []),
          last_browse_dir := dictGet entries "last_browse_dir" Json.null }
  | some (some _) => Except.error "AttributeError"

/-- Counterexample to C10 as stated: a file whose contents decode to the
JSON array `[]` makes `Config.load` raise `AttributeError`
(`data.get` on a list), which the `except` clause does not catch. -/
theorem C10_counterexample :
    Config.load (some (some (Json.arr []))) = Except.error "AttributeError" :=
  rfl

/-- C10 (amended): `Config.load` returns the default config when the path
does not exist or the contents fail JSON decoding; when the contents
decode to a JSON object each field is taken from it with the dataclass
defaults for missing keys; when the contents decode to any non-object
JSON value, the call raises (`AttributeError` from `data.get`), escaping
the `except (JSONDecodeError, KeyError)` clause. -/
theorem C10_load_behaviour (entries : List (String × Json)) (j : Json)
    (hj : ∀ es, j ≠ Json.obj es) :
    Config.load none = Except.ok {} ∧
    Config.load (some none) = Except.ok {} ∧
    Config.load (some (some (Json.obj entries))) =
      Except.ok
        { default_svg := dictGet entries "default_svg" Json.null,
          overrides := dictGet entries "overrides" (Json.obj []),
          disabled := dictGet entries "disabled" (Json.arr []),
          last_browse_dir := dictGet entries "last_browse_dir" Json.null } ∧
    Config.load (some (some j)) = Except.error "AttributeError" := by
  refine ⟨rfl, rfl, rfl, ?_⟩
  cases j with
  | null => rfl
  | bool b => rfl
  | num q => rfl
  | str s => rfl
  | arr elems => rfl
  | obj es => exact absurd rfl (hj es)

/-- Witness for the amended C10 at concrete inputs. -/
theorem C10_load_behaviour_witness :
    Config.load (some (some (Json.obj [("default_svg", Json.str "icon.svg")]))) =
      Except.ok
        { default_svg := Json.str "icon.svg",
          overrides := Json.obj [],
          disabled := Json.arr [],
          last_browse_dir := Json.null } ∧
    Config.load (some (some (Json.arr []))) = Except.error "AttributeError" :=
  ⟨(C10_load_behaviour [("default_svg", Json.str "icon.svg")] (Json.arr [])
      (by intro es h; cases h)).2.2.1,
   (C10_load_behaviour [("default_svg", Json.str "icon.svg")] (Json.arr [])
      (by intro es h; cases h)).2.2.2⟩
